import Mathlib

/-!
Verification of the `vtkIECTransformLogic` class of the
RadiotherapyTransformsIEC repository (files `src/vtkIECTransformLogic.h`
and its implementation).

The class maintains a fixed tree of IEC 61217 coordinate frames, one
mutable elementary 4x4 affine transform per tree edge, and composes the
transform between any two frames by walking both frames' paths to/from
the root (`FixedReference`).

Embedding conventions:
* `CoordinateSystemIdentifier` is embedded as an inductive enumeration in
  the declaration order of the C++ enum.
* 4x4 double matrices are embedded as `Matrix (Fin 4) (Fin 4) ℚ`
  (exact arithmetic in place of floating point).
* `vtkMatrix4x4::Invert` (adjoint divided by determinant) is embedded as
  `invertMatrix A = A.det⁻¹ • A.adjugate`.  For a singular matrix the C++
  division by zero produces non-finite entries; with the rational
  convention `0⁻¹ = 0` the embedding produces the zero matrix, which —
  like the C++ result — is not an inverse of `A`.
* The mutable per-edge matrices (`this->CollimatorToGantryTransform`,
  ...) are embedded as an explicit store: a function from the
  (child, parent) pair identifying the transform object to its current
  matrix.  Update member functions become `Store → ... → Store`.
* Rotation angles enter the C++ code only through `cos`/`sin`; the
  embedded update operations take the cosine and sine of the angle as
  rational parameters.
* The `do { ... } while(found)` loop of `GetPathToRoot` is embedded with
  an explicit fuel parameter; `none` means the fuel was exhausted before
  the loop exited (which never happens, as proved below).
-/

/-- The `CoordinateSystemIdentifier` enum of `vtkIECTransformLogic`,
in declaration order (`RAS = 0`, ..., `LastIECCoordinateFrame`). -/
inductive CoordinateSystemIdentifier where
  | RAS
  | FixedReference
  | Gantry
  | Collimator
  | LeftImagingPanel
  | RightImagingPanel
  | PatientSupportRotation
  | PatientSupport
  | TableTopEccentricRotation
  | TableTop
  | FlatPanel
  | WedgeFilter
  | Patient
  | DICOM
  | PatientImageRegularGrid
  | Imager
  | Focus
  | LastIECCoordinateFrame
  deriving DecidableEq, Repr, Fintype

open CoordinateSystemIdentifier

/-- The `CoordinateSystemsMap` built by the constructor: display name of
each frame.  The constructor only inserts the 15 catalog frames; for the
remaining identifiers (`Imager`, `Focus`, `LastIECCoordinateFrame`)
`std::map::operator[]` default-constructs the empty string. -/
def coordinateSystemsMap : CoordinateSystemIdentifier → String
  | RAS => "Ras"
  | FixedReference => "FixedReference"
  | Gantry => "Gantry"
  | Collimator => "Collimator"
  | LeftImagingPanel => "LeftImagingPanel"
  | RightImagingPanel => "RightImagingPanel"
  | PatientSupportRotation => "PatientSupportRotation"
  | PatientSupport => "PatientSupport"
  | TableTopEccentricRotation => "TableTopEccentricRotation"
  | TableTop => "TableTop"
  | FlatPanel => "FlatPanel"
  | WedgeFilter => "WedgeFilter"
  | Patient => "Patient"
  | DICOM => "DICOM"
  | PatientImageRegularGrid => "PatientImageRegularGrid"
  | Imager => ""
  | Focus => ""
  | LastIECCoordinateFrame => ""

/-- `vtkIECTransformLogic::GetTransformNameBetween`:
`CoordinateSystemsMap[fromFrame] + "To" + CoordinateSystemsMap[toFrame] + "Transform"`. -/
def getTransformNameBetween (fromFrame toFrame : CoordinateSystemIdentifier) : String :=
  coordinateSystemsMap fromFrame ++ "To" ++ coordinateSystemsMap toFrame ++ "Transform"

/-- The `IECTransforms` vector built by the constructor, in `push_back`
order: the declared (fromFrame, toFrame) transform pairs. -/
def iecTransforms : List (CoordinateSystemIdentifier × CoordinateSystemIdentifier) :=
  [(FixedReference, RAS),
   (Gantry, FixedReference),
   (Collimator, Gantry),
   (WedgeFilter, Collimator),
   (LeftImagingPanel, Gantry),
   (RightImagingPanel, Gantry),
   (PatientSupportRotation, FixedReference),
   (PatientSupport, PatientSupportRotation),
   (TableTopEccentricRotation, PatientSupportRotation),
   (TableTop, TableTopEccentricRotation),
   (Patient, TableTop),
   (DICOM, Patient),
   (PatientImageRegularGrid, DICOM),
   (RAS, Patient),
   (FlatPanel, Gantry)]

/-- The `ElementaryTransforms` vector built by the constructor, in
`push_back` order.  Each transform object is identified here by the
(fromFrame, toFrame) pair whose `GetTransformNameBetween` name it was
given with `SetObjectName` in the constructor. -/
def elementaryTransforms : List (CoordinateSystemIdentifier × CoordinateSystemIdentifier) :=
  [(FixedReference, RAS),
   (Gantry, FixedReference),
   (Collimator, Gantry),
   (WedgeFilter, Collimator),
   (LeftImagingPanel, Gantry),
   (RightImagingPanel, Gantry),
   (PatientSupportRotation, FixedReference),
   (PatientSupport, PatientSupportRotation),
   (TableTopEccentricRotation, PatientSupportRotation),
   (TableTop, TableTopEccentricRotation),
   (Patient, TableTop),
   (DICOM, Patient),
   (PatientImageRegularGrid, DICOM),
   (RAS, Patient),
   (FlatPanel, Gantry)]

/-- The `CoordinateSystemsHierarchy` map (key: parent, value: children)
built by the constructor.  A `std::map` iterates in key order, so the
entries are listed here sorted by the enum value of the parent, which is
the order the `GetPathToRoot` loop scans them in. -/
def coordinateSystemsHierarchy :
    List (CoordinateSystemIdentifier × List CoordinateSystemIdentifier) :=
  [(FixedReference, [Gantry, PatientSupportRotation]),
   (Gantry, [Collimator, LeftImagingPanel, RightImagingPanel, FlatPanel]),
   (Collimator, [WedgeFilter]),
   (PatientSupportRotation, [PatientSupport, TableTopEccentricRotation]),
   (TableTopEccentricRotation, [TableTop]),
   (TableTop, [Patient]),
   (Patient, [DICOM, RAS]),
   (DICOM, [PatientImageRegularGrid])]

/-- A frame is part of the declared tree when it is the root or appears
as a child in `CoordinateSystemsHierarchy`. -/
def inHierarchyTree (frame : CoordinateSystemIdentifier) : Bool :=
  frame = FixedReference ||
    coordinateSystemsHierarchy.any (fun entry => entry.2.contains frame)

/-- `child` is a declared child of `parent` in `CoordinateSystemsHierarchy`. -/
def isHierarchyChildOf (child parent : CoordinateSystemIdentifier) : Bool :=
  coordinateSystemsHierarchy.any (fun entry => entry.1 = parent && entry.2.contains child)

/-!
## Path resolution (`GetPathToRoot` / `GetPathFromRoot`)

`GetPathToRoot` runs a `do { for (pair : CoordinateSystemsHierarchy) {...} }
while (found)` loop.  One pass of the inner `for` loop is embedded as
`pathScanPass`; the outer loop is embedded with fuel.
-/

/-- One pass of the `for (auto& pair : this->CoordinateSystemsHierarchy)`
loop body of `GetPathToRoot`.  Returns the values of `found`, `frame` and
`path` when the pass ends (by `break` or by running off the end of the
map).  For a matching entry the code sets `frame = parent`,
appends the matched child to `path`, and either breaks with `found = true`
(parent is not the root) or appends `FixedReference` and keeps scanning
(parent is the root, `found` left unchanged); for a non-matching entry it
sets `found = false`. -/
def pathScanPass :
    List (CoordinateSystemIdentifier × List CoordinateSystemIdentifier) →
    CoordinateSystemIdentifier → List CoordinateSystemIdentifier → Bool →
    Bool × CoordinateSystemIdentifier × List CoordinateSystemIdentifier
  | [], frame, path, found => (found, frame, path)
  | (parent, children) :: rest, frame, path, found =>
    if children.contains frame then
      let path' := path ++ [frame]
      if parent ≠ FixedReference then
        (true, parent, path')
      else
        pathScanPass rest parent (path' ++ [FixedReference]) found
    else
      pathScanPass rest frame path false

/-- The `do ... while (found)` loop of `GetPathToRoot`, with fuel.
`none` means the fuel ran out while the loop was still running. -/
def getPathToRootLoop :
    Nat → CoordinateSystemIdentifier → List CoordinateSystemIdentifier → Bool →
    Option (List CoordinateSystemIdentifier)
  | 0, _, _, _ => none
  | fuel + 1, frame, path, found =>
    match pathScanPass coordinateSystemsHierarchy frame path found with
    | (true, frame', path') => getPathToRootLoop fuel frame' path' true
    | (false, _, path') => some path'

/-- Fuel that always suffices for `getPathToRootLoop`: the loop advances
one tree level per iteration and the tree depth is at most 7. -/
def pathToRootFuel : Nat := 32

/-- `vtkIECTransformLogic::GetPathToRoot`, with explicit fuel.  The C++
function returns a success flag and fills `path` (passed in empty by all
callers); the root is special-cased, otherwise the scan loop runs and the
function returns `path.size() > 0`. -/
def getPathToRootFuelled (fuel : Nat) (frame : CoordinateSystemIdentifier) :
    Option (Bool × List CoordinateSystemIdentifier) :=
  if frame = FixedReference then
    some (true, [FixedReference])
  else
    match getPathToRootLoop fuel frame [] false with
    | some path => some (!path.isEmpty, path)
    | none => none

/-- `GetPathToRoot` at the (always sufficient, as proved below) fuel. -/
def getPathToRoot (frame : CoordinateSystemIdentifier) :
    Bool × List CoordinateSystemIdentifier :=
  (getPathToRootFuelled pathToRootFuel frame).getD (false, [])

/-- `vtkIECTransformLogic::GetPathFromRoot`: `GetPathToRoot`, then
reverse the path on success. -/
def getPathFromRoot (frame : CoordinateSystemIdentifier) :
    Bool × List CoordinateSystemIdentifier :=
  match getPathToRoot frame with
  | (true, path) => (true, path.reverse)
  | (false, path) => (false, path)

/-!
## Elementary transform store and lookup
-/

/-- 4x4 matrices of `vtkMatrix4x4`, in exact arithmetic. -/
abbrev Mat4 := Matrix (Fin 4) (Fin 4) ℚ

/-- `vtkMatrix4x4::Invert`: the adjoint matrix divided by the
determinant.  With the rational convention `0⁻¹ = 0`, a singular input
yields the zero matrix (the C++ division by zero yields non-finite
entries; neither result is an inverse). -/
def invertMatrix (A : Mat4) : Mat4 := A.det⁻¹ • A.adjugate

/-- The mutable state of the 15 elementary `vtkTransform` members: the
current matrix of each transform object, keyed by the (fromFrame,
toFrame) pair naming the object. -/
def Store := CoordinateSystemIdentifier × CoordinateSystemIdentifier → Mat4

/-- The object-name scan of `GetElementaryTransformBetween`: find the
first entry of `ElementaryTransforms` whose object name equals the
requested `GetTransformNameBetween(fromFrame, toFrame)` name.  This part
of the lookup does not depend on the stored matrices. -/
def findElementaryTransform (fromFrame toFrame : CoordinateSystemIdentifier) :
    Option (CoordinateSystemIdentifier × CoordinateSystemIdentifier) :=
  elementaryTransforms.find? fun entry =>
    getTransformNameBetween entry.1 entry.2 == getTransformNameBetween fromFrame toFrame

/-- `vtkIECTransformLogic::GetElementaryTransformBetween`: scan the
`ElementaryTransforms` vector for the object with the requested name and
return its matrix; `none` embeds the `nullptr` returned when no name
matches. -/
def getElementaryTransformBetween (st : Store)
    (fromFrame toFrame : CoordinateSystemIdentifier) : Option Mat4 :=
  (findElementaryTransform fromFrame toFrame).map st

/-!
## `GetTransformBetween`
-/

/-- The adjacent pairs `(v[i], v[i+1])`, `i < size - 1`, of a path
vector, as walked by the two loops of `GetTransformBetween`. -/
def adjacentPairs (path : List CoordinateSystemIdentifier) :
    List (CoordinateSystemIdentifier × CoordinateSystemIdentifier) :=
  path.zip path.tail

/-- The first loop of `GetTransformBetween` (over `fromFrameVector`):
for each adjacent pair `(child, parent)`, skip it if `child == parent`,
otherwise look up the elementary transform from `child` to `parent` and
post-multiply-concatenate its matrix as stored; return failure (`none`)
as soon as a lookup fails.  In `PostMultiply` mode, concatenating `M`
onto accumulator `acc` yields `M * acc`. -/
def fromLegLoop (st : Store) :
    List (CoordinateSystemIdentifier × CoordinateSystemIdentifier) → Mat4 → Option Mat4
  | [], acc => some acc
  | (child, parent) :: rest, acc =>
    if child = parent then
      fromLegLoop st rest acc
    else
      match getElementaryTransformBetween st child parent with
      | some fromTransform => fromLegLoop st rest (fromTransform * acc)
      | none => none

/-- The second loop of `GetTransformBetween` (over `toFrameVector`): for
each adjacent pair `(parent, child)`, skip it if `child == parent`,
otherwise look up the elementary transform from `child` to `parent`,
copy its matrix, invert the copy unless `transformForBeam` is set, and
post-multiply-concatenate it; return failure (`none`) as soon as a
lookup fails. -/
def toLegLoop (st : Store) (transformForBeam : Bool) :
    List (CoordinateSystemIdentifier × CoordinateSystemIdentifier) → Mat4 → Option Mat4
  | [], acc => some acc
  | (parent, child) :: rest, acc =>
    if child = parent then
      toLegLoop st transformForBeam rest acc
    else
      match getElementaryTransformBetween st child parent with
      | some toTransform =>
        toLegLoop st transformForBeam rest
          ((if transformForBeam then toTransform else invertMatrix toTransform) * acc)
      | none => none

/-- `vtkIECTransformLogic::GetTransformBetween`.  `outputPresent` embeds
the nullness of the `outputTransform` pointer argument; `some M` embeds
"return true with the output transform holding `M`", `none` embeds
"return false".  The output starts from the identity in `PostMultiply`
mode; `GetPathFromRoot` is only evaluated when `GetPathToRoot` succeeds
(the C++ `&&` short-circuits). -/
def getTransformBetween (outputPresent : Bool) (st : Store)
    (fromFrame toFrame : CoordinateSystemIdentifier) (transformForBeam : Bool) :
    Option Mat4 :=
  if outputPresent = false then
    none
  else
    match getPathToRoot fromFrame with
    | (false, _) => none
    | (true, fromFramePath) =>
      match getPathFromRoot toFrame with
      | (false, _) => none
      | (true, toFramePath) =>
        match fromLegLoop st (adjacentPairs fromFramePath) 1 with
        | none => none
        | some acc => toLegLoop st transformForBeam (adjacentPairs toFramePath) acc

set_option maxRecDepth 1000000

/-!
## Correctness of path resolution
-/

/-- More fuel never changes a loop result that was reached within the
given fuel. -/
theorem getPathToRootLoop_mono {n : Nat} :
    ∀ {m : Nat} {frame : CoordinateSystemIdentifier}
      {path : List CoordinateSystemIdentifier} {found : Bool}
      {r : List CoordinateSystemIdentifier},
      n ≤ m → getPathToRootLoop n frame path found = some r →
      getPathToRootLoop m frame path found = some r := by
  induction n with
  | zero =>
    intro m frame path found r _ h
    simp [getPathToRootLoop] at h
  | succ k ih =>
    intro m frame path found r hle h
    obtain ⟨m', rfl⟩ : ∃ m', m = m' + 1 := ⟨m - 1, by omega⟩
    rw [getPathToRootLoop] at h ⊢
    rcases hscan : pathScanPass coordinateSystemsHierarchy frame path found with ⟨b, f', p'⟩
    rw [hscan] at h
    cases b
    · exact h
    · exact ih (by omega) h

/-- More fuel never changes a `GetPathToRoot` result that was reached
within the given fuel. -/
theorem getPathToRootFuelled_mono {n m : Nat} (hle : n ≤ m)
    {frame : CoordinateSystemIdentifier} {r : Bool × List CoordinateSystemIdentifier}
    (h : getPathToRootFuelled n frame = some r) :
    getPathToRootFuelled m frame = some r := by
  unfold getPathToRootFuelled at h ⊢
  by_cases hf : frame = FixedReference
  · rw [if_pos hf] at h ⊢; exact h
  · rw [if_neg hf] at h ⊢
    rcases hloop : getPathToRootLoop n frame [] false with _ | path
    · rw [hloop] at h; exact absurd h (by simp)
    · rw [hloop] at h
      rw [getPathToRootLoop_mono hle hloop]
      exact h

/-- The path `GetPathToRoot` produces for each frame (empty for the
frames outside the declared tree). -/
def chainToRoot : CoordinateSystemIdentifier → List CoordinateSystemIdentifier
  | FixedReference => [FixedReference]
  | Gantry => [Gantry, FixedReference]
  | Collimator => [Collimator, Gantry, FixedReference]
  | LeftImagingPanel => [LeftImagingPanel, Gantry, FixedReference]
  | RightImagingPanel => [RightImagingPanel, Gantry, FixedReference]
  | FlatPanel => [FlatPanel, Gantry, FixedReference]
  | WedgeFilter => [WedgeFilter, Collimator, Gantry, FixedReference]
  | PatientSupportRotation => [PatientSupportRotation, FixedReference]
  | PatientSupport => [PatientSupport, PatientSupportRotation, FixedReference]
  | TableTopEccentricRotation => [TableTopEccentricRotation, PatientSupportRotation, FixedReference]
  | TableTop => [TableTop, TableTopEccentricRotation, PatientSupportRotation, FixedReference]
  | Patient =>
      [Patient, TableTop, TableTopEccentricRotation, PatientSupportRotation, FixedReference]
  | DICOM =>
      [DICOM, Patient, TableTop, TableTopEccentricRotation, PatientSupportRotation,
       FixedReference]
  | RAS =>
      [RAS, Patient, TableTop, TableTopEccentricRotation, PatientSupportRotation,
       FixedReference]
  | PatientImageRegularGrid =>
      [PatientImageRegularGrid, DICOM, Patient, TableTop, TableTopEccentricRotation,
       PatientSupportRotation, FixedReference]
  | Imager => []
  | Focus => []
  | LastIECCoordinateFrame => []

/-- At the standard fuel, `GetPathToRoot` succeeds with flag
`inHierarchyTree` and path `chainToRoot` on every frame. -/
theorem getPathToRootFuelled_eval (f : CoordinateSystemIdentifier) :
    getPathToRootFuelled pathToRootFuel f = some (inHierarchyTree f, chainToRoot f) := by
  revert f; decide

/-- The chain of a tree frame starts at the frame, is linked by
parent-child hierarchy edges, and ends at the root, which appears in it
exactly once. -/
theorem chainToRoot_wellFormed (f : CoordinateSystemIdentifier)
    (h : inHierarchyTree f = true) :
    (chainToRoot f).head? = some f ∧
    (chainToRoot f).getLast? = some FixedReference ∧
    (chainToRoot f).count FixedReference = 1 ∧
    (adjacentPairs (chainToRoot f)).all (fun q => isHierarchyChildOf q.1 q.2) = true := by
  revert f; decide

/-- Frames outside the tree get the empty chain. -/
theorem chainToRoot_empty_of_not_inTree (f : CoordinateSystemIdentifier)
    (h : inHierarchyTree f = false) : chainToRoot f = [] := by
  revert f; decide

/-- C5: for every frame of the declared hierarchy, `GetPathToRoot`
terminates (returns within any fuel at least `pathToRootFuel`, rather
than exhausting it) with `true` and the ordered parent-link chain from
the frame up to `FixedReference`, the root appearing exactly once, at
the tree-ward end; for every frame outside the declared tree (`Imager`,
`Focus`, `LastIECCoordinateFrame`) it terminates with `false` and an
empty path. -/
theorem getPathToRoot_terminates_correct (f : CoordinateSystemIdentifier)
    (fuel : Nat) (hfuel : pathToRootFuel ≤ fuel) :
    getPathToRootFuelled fuel f = some (inHierarchyTree f, chainToRoot f) ∧
    (inHierarchyTree f = true →
      (chainToRoot f).head? = some f ∧
      (chainToRoot f).getLast? = some FixedReference ∧
      (chainToRoot f).count FixedReference = 1 ∧
      (adjacentPairs (chainToRoot f)).all (fun q => isHierarchyChildOf q.1 q.2) = true) ∧
    (inHierarchyTree f = false → chainToRoot f = []) :=
  ⟨getPathToRootFuelled_mono hfuel (getPathToRootFuelled_eval f),
   chainToRoot_wellFormed f,
   chainToRoot_empty_of_not_inTree f⟩

/-- Witness for C5 at the concrete frame `WedgeFilter` and fuel 33. -/
theorem getPathToRoot_terminates_correct_witness :
    pathToRootFuel ≤ 33 ∧
    getPathToRootFuelled 33 WedgeFilter =
      some (true, [WedgeFilter, Collimator, Gantry, FixedReference]) ∧
    [WedgeFilter, Collimator, Gantry, FixedReference].count FixedReference = 1 := by
  have h := getPathToRoot_terminates_correct WedgeFilter 33 (by decide)
  exact ⟨by decide, h.1, (h.2.1 (by decide)).2.2.1⟩

/-!
## C1: declarative characterization of `GetTransformBetween`

The following definitions restate, in the words of the specification,
what each walk of `GetTransformBetween` computes; the claim is settled
by proving the embedded function equal to this characterization.
-/

/-- Every elementary-transform lookup performed by the
`fromFrame`-to-root walk succeeds (degenerate pairs are skipped and
perform no lookup). -/
def fromLegLookupsOk (st : Store)
    (pairs : List (CoordinateSystemIdentifier × CoordinateSystemIdentifier)) : Bool :=
  pairs.all fun q => q.1 == q.2 || (getElementaryTransformBetween st q.1 q.2).isSome

/-- Every elementary-transform lookup performed by the
root-to-`toFrame` walk succeeds (the walk looks edges up in the
child-to-parent direction). -/
def toLegLookupsOk (st : Store)
    (pairs : List (CoordinateSystemIdentifier × CoordinateSystemIdentifier)) : Bool :=
  pairs.all fun q => q.2 == q.1 || (getElementaryTransformBetween st q.2 q.1).isSome

/-- The matrix accumulated by the `fromFrame`-to-root walk: starting
from `acc`, post-multiply-concatenate each edge's stored (child-to-parent)
matrix, uninverted, skipping degenerate pairs. -/
def composeFromLeg (st : Store)
    (pairs : List (CoordinateSystemIdentifier × CoordinateSystemIdentifier))
    (acc : Mat4) : Mat4 :=
  pairs.foldl
    (fun a q =>
      if q.1 = q.2 then a else ((getElementaryTransformBetween st q.1 q.2).getD 1) * a)
    acc

/-- The matrix accumulated by the root-to-`toFrame` walk: starting from
`acc`, post-multiply-concatenate each edge's stored matrix, inverted
when `transformForBeam` is false and uninverted when it is true,
skipping degenerate pairs. -/
def composeToLeg (st : Store) (transformForBeam : Bool)
    (pairs : List (CoordinateSystemIdentifier × CoordinateSystemIdentifier))
    (acc : Mat4) : Mat4 :=
  pairs.foldl
    (fun a q =>
      if q.2 = q.1 then a
      else
        (if transformForBeam then (getElementaryTransformBetween st q.2 q.1).getD 1
         else invertMatrix ((getElementaryTransformBetween st q.2 q.1).getD 1)) * a)
    acc

/-- Declarative form of `GetTransformBetween`, following the
specification text: resolve both root paths, succeed exactly when both
resolutions and every elementary lookup along both walks succeed, and in
that case return the identity-seeded post-multiplied concatenation of
the two walks. -/
def transformBetweenSpec (st : Store)
    (fromFrame toFrame : CoordinateSystemIdentifier) (transformForBeam : Bool) :
    Option Mat4 :=
  let fromRes := getPathToRoot fromFrame
  let toRes := getPathFromRoot toFrame
  if fromRes.1 && toRes.1 && fromLegLookupsOk st (adjacentPairs fromRes.2) &&
      toLegLookupsOk st (adjacentPairs toRes.2) then
    some (composeToLeg st transformForBeam (adjacentPairs toRes.2)
      (composeFromLeg st (adjacentPairs fromRes.2) 1))
  else none

/-- The early-return loop over the from-path equals the guarded total
fold. -/
theorem fromLegLoop_eq (st : Store) :
    ∀ (pairs : List (CoordinateSystemIdentifier × CoordinateSystemIdentifier)) (acc : Mat4),
      fromLegLoop st pairs acc =
        if fromLegLookupsOk st pairs then some (composeFromLeg st pairs acc) else none := by
  intro pairs
  induction pairs with
  | nil => intro acc; simp [fromLegLoop, fromLegLookupsOk, composeFromLeg]
  | cons q rest ih =>
    intro acc
    rcases q with ⟨child, parent⟩
    by_cases hq : child = parent
    · subst hq
      simp [fromLegLoop, fromLegLookupsOk, composeFromLeg, ih]
    · rcases hlook : getElementaryTransformBetween st child parent with _ | m
      · simp [fromLegLoop, hq, hlook, fromLegLookupsOk]
      · simp [fromLegLoop, hq, hlook, fromLegLookupsOk, composeFromLeg, ih]

/-- The early-return loop over the to-path equals the guarded total
fold. -/
theorem toLegLoop_eq (st : Store) (transformForBeam : Bool) :
    ∀ (pairs : List (CoordinateSystemIdentifier × CoordinateSystemIdentifier)) (acc : Mat4),
      toLegLoop st transformForBeam pairs acc =
        if toLegLookupsOk st pairs then
          some (composeToLeg st transformForBeam pairs acc)
        else none := by
  intro pairs
  induction pairs with
  | nil => intro acc; simp [toLegLoop, toLegLookupsOk, composeToLeg]
  | cons q rest ih =>
    intro acc
    rcases q with ⟨parent, child⟩
    by_cases hq : child = parent
    · subst hq
      simp [toLegLoop, toLegLookupsOk, composeToLeg, ih]
    · rcases hlook : getElementaryTransformBetween st child parent with _ | m
      · simp [toLegLoop, hq, hlook, toLegLookupsOk]
      · simp [toLegLoop, hq, hlook, toLegLookupsOk, composeToLeg, ih]

/-- C1: for every frame pair, store state and `transformForBeam` flag
(with a non-null output transform), `GetTransformBetween` equals its
declarative characterization: starting from the identity with
post-multiply concatenation, it walks the from-path concatenating each
edge's stored child-to-parent matrix uninverted (skipping degenerate
pairs), then walks the root-to-`toFrame` path concatenating each edge's
matrix, inverted exactly when `transformForBeam` is false, and it
succeeds exactly when both path resolutions and every elementary lookup
along both walks succeed. -/
theorem getTransformBetween_eq_spec (st : Store)
    (fromFrame toFrame : CoordinateSystemIdentifier) (transformForBeam : Bool) :
    getTransformBetween true st fromFrame toFrame transformForBeam =
      transformBetweenSpec st fromFrame toFrame transformForBeam := by
  unfold getTransformBetween transformBetweenSpec
  rcases hfrom : getPathToRoot fromFrame with ⟨bf, fromPath⟩
  rcases hto : getPathFromRoot toFrame with ⟨bt, toPath⟩
  cases bf
  · simp
  · cases bt
    · simp
    · simp only [Bool.true_and]
      rw [fromLegLoop_eq]
      by_cases hfl : fromLegLookupsOk st (adjacentPairs fromPath) = true
      · rw [if_pos hfl]
        show toLegLoop st transformForBeam (adjacentPairs toPath)
            (composeFromLeg st (adjacentPairs fromPath) 1) = _
        rw [toLegLoop_eq]
        by_cases htl : toLegLookupsOk st (adjacentPairs toPath) = true
        · rw [if_pos htl, if_pos (by rw [hfl, htl]; rfl)]
        · rw [if_neg htl, if_neg (by simp [htl])]
      · rw [if_neg hfl]
        show (none : Option Mat4) = _
        rw [if_neg (by simp [hfl])]

/-!
## Update operations and constructor state

`vtkTransform` objects are in their default `PreMultiply` mode, so a
sequence `Identity(); Translate(...); RotateZ(...)` produces the matrix
`T * R`.  The rotation angle enters only through its cosine and sine,
which the embedding takes as rational parameters.
-/

/-- `vtkTransform::RotateX` (counter-clockwise, right-hand rule), given
the cosine and sine of the angle. -/
def rotateXMatrix (c s : ℚ) : Mat4 := !![1, 0, 0, 0; 0, c, -s, 0; 0, s, c, 0; 0, 0, 0, 1]

/-- `vtkTransform::RotateY` (counter-clockwise, right-hand rule), given
the cosine and sine of the angle. -/
def rotateYMatrix (c s : ℚ) : Mat4 := !![c, 0, s, 0; 0, 1, 0, 0; -s, 0, c, 0; 0, 0, 0, 1]

/-- `vtkTransform::RotateZ` (counter-clockwise, right-hand rule), given
the cosine and sine of the angle. -/
def rotateZMatrix (c s : ℚ) : Mat4 := !![c, -s, 0, 0; s, c, 0, 0; 0, 0, 1, 0; 0, 0, 0, 1]

/-- `vtkTransform::Translate`. -/
def translateMatrix (x y z : ℚ) : Mat4 :=
  !![1, 0, 0, x; 0, 1, 0, y; 0, 0, 1, z; 0, 0, 0, 1]

/-- `vtkIECTransformLogic::UpdateGantryToFixedReferenceTransform`: reset
the `GantryToFixedReferenceTransform` to identity, then
`RotateX(gantryPitchAngleDeg)`, then `RotateY(gantryRotationAngleDeg)`;
no other member is touched. -/
def updateGantryToFixedReferenceTransform (st : Store)
    (cosGantryRotationAngle sinGantryRotationAngle
     cosGantryPitchAngle sinGantryPitchAngle : ℚ) : Store :=
  fun p =>
    if p = (Gantry, FixedReference) then
      rotateXMatrix cosGantryPitchAngle sinGantryPitchAngle *
        rotateYMatrix cosGantryRotationAngle sinGantryRotationAngle
    else st p

/-- `vtkIECTransformLogic::UpdateCollimatorToGantryTransform`: reset the
`CollimatorToGantryTransform` to identity, then `Translate(0, 0, bz)`,
then `RotateZ(collimatorRotationAngleDeg)`; no other member is touched. -/
def updateCollimatorToGantryTransform (st : Store)
    (cosCollimatorRotationAngle sinCollimatorRotationAngle bz : ℚ) : Store :=
  fun p =>
    if p = (Collimator, Gantry) then
      translateMatrix 0 0 bz *
        rotateZMatrix cosCollimatorRotationAngle sinCollimatorRotationAngle
    else st p

/-- `vtkIECTransformLogic::UpdateWedgeFilterToCollimatorTransform`:
reset the `WedgeFilterToCollimatorTransform` to identity, then
`Translate(0, 0, wz)`, then `RotateZ(wedgefilterRotationAngleDeg)`; no
other member is touched. -/
def updateWedgeFilterToCollimatorTransform (st : Store)
    (cosWedgeFilterRotationAngle sinWedgeFilterRotationAngle wz : ℚ) : Store :=
  fun p =>
    if p = (WedgeFilter, Collimator) then
      translateMatrix 0 0 wz *
        rotateZMatrix cosWedgeFilterRotationAngle sinWedgeFilterRotationAngle
    else st p

/-- `vtkIECTransformLogic::UpdatePatientSupportRotationToFixedReferenceTransform`:
reset the `PatientSupportRotationToFixedReferenceTransform` to identity,
then `RotateZ(patientSupportRotationAngleDeg)`; no other member is
touched. -/
def updatePatientSupportRotationToFixedReferenceTransform (st : Store)
    (cosPatientSupportRotationAngle sinPatientSupportRotationAngle : ℚ) : Store :=
  fun p =>
    if p = (PatientSupportRotation, FixedReference) then
      rotateZMatrix cosPatientSupportRotationAngle sinPatientSupportRotationAngle
    else st p

/-- `vtkIECTransformLogic::UpdateTableTopEccentricRotationToPatientSupportRotationTransform`:
reset the `TableTopEccentricRotationToPatientSupportRotationTransform`
to identity, then `Translate(0, ey, 0)`, then
`RotateZ(tableTopEccentricRotationAngleDeg)`; no other member is
touched. -/
def updateTableTopEccentricRotationToPatientSupportRotationTransform (st : Store)
    (cosTableTopEccentricRotationAngle sinTableTopEccentricRotationAngle ey : ℚ) : Store :=
  fun p =>
    if p = (TableTopEccentricRotation, PatientSupportRotation) then
      translateMatrix 0 ey 0 *
        rotateZMatrix cosTableTopEccentricRotationAngle sinTableTopEccentricRotationAngle
    else st p

/-- `vtkIECTransformLogic::UpdateTableTopToTableTopEccentricRotationTransform`:
reset the `TableTopToTableTopEccentricRotationTransform` to identity,
then `Translate(tx, ty, tz)`, then `RotateX(tableTopPitchAngleDeg)`,
then `RotateY(tableTopRollAngleDeg)`; no other member is touched. -/
def updateTableTopToTableTopEccentricRotationTransform (st : Store)
    (tx ty tz cosTableTopPitchAngle sinTableTopPitchAngle
     cosTableTopRollAngle sinTableTopRollAngle : ℚ) : Store :=
  fun p =>
    if p = (TableTop, TableTopEccentricRotation) then
      translateMatrix tx ty tz *
        rotateXMatrix cosTableTopPitchAngle sinTableTopPitchAngle *
        rotateYMatrix cosTableTopRollAngle sinTableTopRollAngle
    else st p

/-- `vtkIECTransformLogic::UpdatePatientToTableTopTransform`: reset the
`PatientToTableTopTransform` to identity, then `Translate(px, py, pz)`,
then `RotateX(patientPsiAngleDeg)`, then `RotateY(patientPhiAngleDeg)`,
then `RotateZ(patientThetaAngleDeg)`; no other member is touched. -/
def updatePatientToTableTopTransform (st : Store)
    (px py pz cosPatientPsiAngle sinPatientPsiAngle
     cosPatientPhiAngle sinPatientPhiAngle
     cosPatientThetaAngle sinPatientThetaAngle : ℚ) : Store :=
  fun p =>
    if p = (Patient, TableTop) then
      translateMatrix px py pz *
        rotateXMatrix cosPatientPsiAngle sinPatientPsiAngle *
        rotateYMatrix cosPatientPhiAngle sinPatientPhiAngle *
        rotateZMatrix cosPatientThetaAngle sinPatientThetaAngle
    else st p

/-- `vtkIECTransformLogic::UpdatePatientImageRegularGridToDICOMTransform`:
reset the `PatientImageRegularGridToDICOMTransform` to identity, then
concatenate the direction-cosine matrix built from the parameters (the
third axis being the cross product of the two direction cosines); no
other member is touched. -/
def updatePatientImageRegularGridToDICOMTransform (st : Store)
    (columnPixelSpacing rowPixelSpacing sliceDistance sx sy sz
     directionCosineXx directionCosineXy directionCosineXz
     directionCosineYx directionCosineYy directionCosineYz : ℚ) : Store :=
  let directionCosineZx :=
    directionCosineXy * directionCosineYz - directionCosineXz * directionCosineYy
  let directionCosineZy :=
    directionCosineXz * directionCosineYx - directionCosineXx * directionCosineYz
  let directionCosineZz :=
    directionCosineXx * directionCosineYy - directionCosineXy * directionCosineYx
  fun p =>
    if p = (PatientImageRegularGrid, DICOM) then
      !![directionCosineXx * columnPixelSpacing, directionCosineYx * rowPixelSpacing,
           directionCosineZx * sliceDistance, sx;
         directionCosineXy * columnPixelSpacing, directionCosineYy * rowPixelSpacing,
           directionCosineZy * sliceDistance, sy;
         directionCosineXz * columnPixelSpacing, directionCosineYz * rowPixelSpacing,
           directionCosineZz * sliceDistance, sz;
         0, 0, 0, 1]
    else st p

/-- The constant `DICOMToPatientTransform` matrix concatenated by the
constructor (rotation around the X-axis by +90 degrees counter
clockwise). -/
def dicomToPatientMatrix : Mat4 := !![1, 0, 0, 0; 0, 0, 1, 0; 0, -1, 0, 0; 0, 0, 0, 1]

/-- The store state right after construction: every elementary transform
is identity except `DICOMToPatientTransform`. -/
def initialStore : Store :=
  fun p => if p = (DICOM, Patient) then dicomToPatientMatrix else 1

/-!
## Matrix lemmas
-/

/-- `invertMatrix` agrees with Mathlib's matrix inverse (over a field,
`Ring.inverse` of the determinant is its field inverse). -/
theorem invertMatrix_eq_inv (A : Mat4) : invertMatrix A = A⁻¹ := by
  rw [invertMatrix, Matrix.inv_def, Ring.inverse_eq_inv]

/-- Inverting the identity yields the identity. -/
theorem invertMatrix_one : invertMatrix (1 : Mat4) = 1 := by
  rw [invertMatrix_eq_inv, inv_one]

/-- For a nonsingular matrix, `invertMatrix` is a genuine left inverse. -/
theorem invertMatrix_mul_cancel_left (A B : Mat4) (h : A.det ≠ 0) :
    invertMatrix A * (A * B) = B := by
  rw [invertMatrix_eq_inv, ← mul_assoc,
    Matrix.nonsing_inv_mul A (isUnit_iff_ne_zero.mpr h), one_mul]

/-- A post-multiplied fold factors through its seed. -/
theorem foldl_mul_factor {α : Type} (f : α → Mat4) :
    ∀ (l : List α) (x : Mat4),
      l.foldl (fun a e => f e * a) x = l.foldl (fun a e => f e * a) 1 * x := by
  intro l
  induction l with
  | nil => intro x; simp
  | cons e r ih =>
    intro x
    simp only [List.foldl_cons]
    rw [ih (f e * x), ih (f e * 1), mul_one, mul_assoc]

/-- Walking a nonsingular edge list down (with inversion, in reverse
order) undoes walking it up. -/
theorem foldl_inv_telescope (st : Store) :
    ∀ (edges : List (CoordinateSystemIdentifier × CoordinateSystemIdentifier)) (acc : Mat4),
      (∀ e ∈ edges, (st e).det ≠ 0) →
      edges.reverse.foldl (fun a e => invertMatrix (st e) * a)
        (edges.foldl (fun a e => st e * a) acc) = acc := by
  intro edges
  induction edges with
  | nil => intro acc _; simp
  | cons e rest ih =>
    intro acc h
    simp only [List.reverse_cons, List.foldl_cons, List.foldl_append, List.foldl_nil]
    rw [ih (st e * acc) (fun x hx => h x (List.mem_cons_of_mem _ hx))]
    exact invertMatrix_mul_cancel_left _ _ (h e (List.mem_cons_self _ _))

/-!
## Composition along tree paths
-/

/-- The (child, parent) edges along a frame's path to the root. -/
def treeEdges (f : CoordinateSystemIdentifier) :
    List (CoordinateSystemIdentifier × CoordinateSystemIdentifier) :=
  adjacentPairs (chainToRoot f)

/-- The matrix accumulated by the from-leg walk of frame `f`: the stored
edge matrices from `f` up to the root, post-multiplied onto the
identity. -/
def upProd (st : Store) (f : CoordinateSystemIdentifier) : Mat4 :=
  (treeEdges f).foldl (fun a e => st e * a) 1

/-- The matrix accumulated by the to-leg walk of frame `f` (with
`transformForBeam = false`): the inverted stored edge matrices from the
root down to `f`, post-multiplied onto the identity. -/
def downProd (st : Store) (f : CoordinateSystemIdentifier) : Mat4 :=
  (treeEdges f).reverse.foldl (fun a e => invertMatrix (st e) * a) 1

/-- `GetPathToRoot` evaluated at the standard fuel. -/
theorem getPathToRoot_eval (f : CoordinateSystemIdentifier) :
    getPathToRoot f = (inHierarchyTree f, chainToRoot f) := by
  rw [getPathToRoot, getPathToRootFuelled_eval]
  rfl

/-- Every edge along a tree frame's root path is non-degenerate, found
by the name scan as itself, and present among the elementary
transforms. -/
theorem treeEdges_facts : ∀ f : CoordinateSystemIdentifier, inHierarchyTree f = true →
    (treeEdges f).all (fun q =>
      !(q.1 == q.2) && (findElementaryTransform q.1 q.2 == some q) &&
        decide (q ∈ elementaryTransforms)) = true := by
  decide

/-- The adjacent pairs of a reversed root chain are the swapped reversed
tree edges. -/
theorem toLeg_pairs_eq : ∀ f : CoordinateSystemIdentifier, inHierarchyTree f = true →
    adjacentPairs ((chainToRoot f).reverse) = ((treeEdges f).reverse).map Prod.swap := by
  decide

/-- Pointwise consequences of `treeEdges_facts`. -/
theorem treeEdges_facts_mem {f : CoordinateSystemIdentifier}
    (hf : inHierarchyTree f = true) {q : CoordinateSystemIdentifier × CoordinateSystemIdentifier}
    (hq : q ∈ treeEdges f) :
    q.1 ≠ q.2 ∧ findElementaryTransform q.1 q.2 = some q ∧ q ∈ elementaryTransforms := by
  have h := treeEdges_facts f hf
  rw [List.all_eq_true] at h
  have hmem := h q hq
  simp only [Bool.and_eq_true, Bool.not_eq_true', beq_iff_eq, beq_eq_false_iff_ne,
    decide_eq_true_eq] at hmem
  exact ⟨by simpa using hmem.1.1, hmem.1.2, hmem.2⟩

/-- The elementary lookup at a tree edge returns that edge's stored
matrix, for every store state. -/
theorem lookup_treeEdge (st : Store) {f : CoordinateSystemIdentifier}
    (hf : inHierarchyTree f = true) {q : CoordinateSystemIdentifier × CoordinateSystemIdentifier}
    (hq : q ∈ treeEdges f) :
    getElementaryTransformBetween st q.1 q.2 = some (st q) := by
  rw [getElementaryTransformBetween, (treeEdges_facts_mem hf hq).2.1, Option.map_some']

/-- For every store state and every pair of tree frames,
`GetTransformBetween` (with `transformForBeam = false`) returns the
down-leg product of the target times the up-leg product of the source. -/
theorem getTransformBetween_tree_formula (st : Store) (A B : CoordinateSystemIdentifier)
    (hA : inHierarchyTree A = true) (hB : inHierarchyTree B = true) :
    getTransformBetween true st A B false = some (downProd st B * upProd st A) := by
  have hpA : getPathToRoot A = (true, chainToRoot A) := by rw [getPathToRoot_eval, hA]
  have hpB : getPathFromRoot B = (true, (chainToRoot B).reverse) := by
    rw [getPathFromRoot, getPathToRoot_eval, hB]
  have hfromOk : fromLegLookupsOk st (adjacentPairs (chainToRoot A)) = true := by
    rw [fromLegLookupsOk, List.all_eq_true]
    intro q hq
    rw [lookup_treeEdge st hA hq]
    simp
  have htoOk : toLegLookupsOk st (adjacentPairs ((chainToRoot B).reverse)) = true := by
    rw [toLegLookupsOk, List.all_eq_true, toLeg_pairs_eq B hB]
    intro q hq
    rcases List.mem_map.mp hq with ⟨e, he, rfl⟩
    rw [Prod.fst_swap, Prod.snd_swap, lookup_treeEdge st hB (List.mem_reverse.mp he)]
    simp
  have hcf : composeFromLeg st (adjacentPairs (chainToRoot A)) 1 = upProd st A := by
    rw [composeFromLeg, upProd, treeEdges]
    refine List.foldl_ext _ _ _ ?_
    intro a q hq
    rw [if_neg (treeEdges_facts_mem hA hq).1, lookup_treeEdge st hA hq, Option.getD_some]
  have hct : ∀ x : Mat4,
      composeToLeg st false (adjacentPairs ((chainToRoot B).reverse)) x =
        downProd st B * x := by
    intro x
    rw [composeToLeg, toLeg_pairs_eq B hB, List.foldl_map]
    have hext : ((treeEdges B).reverse).foldl
        (fun a e =>
          if (Prod.swap e).2 = (Prod.swap e).1 then a
          else
            (if false then
                (getElementaryTransformBetween st (Prod.swap e).2 (Prod.swap e).1).getD 1
              else
                invertMatrix
                  ((getElementaryTransformBetween st (Prod.swap e).2 (Prod.swap e).1).getD 1)) *
              a) x =
        ((treeEdges B).reverse).foldl (fun a e => invertMatrix (st e) * a) x := by
      refine List.foldl_ext _ _ _ ?_
      intro a e he
      have hmem := treeEdges_facts_mem hB (List.mem_reverse.mp he)
      rw [Prod.fst_swap, Prod.snd_swap]
      rw [if_neg hmem.1, lookup_treeEdge st hB (List.mem_reverse.mp he), Option.getD_some]
      simp
    rw [hext, downProd, foldl_mul_factor]
  unfold getTransformBetween
  rw [hpA, hpB]
  show (match fromLegLoop st (adjacentPairs (chainToRoot A)) 1 with
    | none => none
    | some acc => toLegLoop st false (adjacentPairs ((chainToRoot B).reverse)) acc) = _
  rw [fromLegLoop_eq, if_pos hfromOk]
  show toLegLoop st false (adjacentPairs ((chainToRoot B).reverse))
      (composeFromLeg st (adjacentPairs (chainToRoot A)) 1) = _
  rw [toLegLoop_eq, if_pos htoOk, hcf, hct]

/-- For stores whose edge matrices are all nonsingular, the down-leg
product inverts the up-leg product. -/
theorem downProd_mul_upProd (st : Store)
    (hdet : ∀ p ∈ elementaryTransforms, (st p).det ≠ 0)
    (f : CoordinateSystemIdentifier) (hf : inHierarchyTree f = true) :
    downProd st f * upProd st f = 1 := by
  have hedges : ∀ e ∈ treeEdges f, (st e).det ≠ 0 := fun e he =>
    hdet e (treeEdges_facts_mem hf he).2.2
  have h := foldl_inv_telescope st (treeEdges f) 1 hedges
  rw [foldl_mul_factor] at h
  rw [downProd, upProd]
  exact h

/-- C3 (amended): for every tree frame `F` and every store state,
`GetTransformBetween(F, F, out, false)` succeeds; the resulting matrix
is the identity provided every stored elementary matrix is invertible
(which the claim's unrestricted quantification over store states lacks —
see the counterexample). -/
theorem getTransformBetween_self_identity (st : Store) (f : CoordinateSystemIdentifier)
    (hf : inHierarchyTree f = true) :
    (getTransformBetween true st f f false).isSome = true ∧
    ((∀ p ∈ elementaryTransforms, (st p).det ≠ 0) →
      getTransformBetween true st f f false = some 1) := by
  constructor
  · rw [getTransformBetween_tree_formula st f f hf hf]
    rfl
  · intro hdet
    rw [getTransformBetween_tree_formula st f f hf hf, downProd_mul_upProd st hdet f hf]

/-- Witness for C3 (amended) at the frame `Collimator` and the
all-identity store. -/
theorem getTransformBetween_self_identity_witness :
    inHierarchyTree Collimator = true ∧
    getTransformBetween true (fun _ => 1) Collimator Collimator false = some 1 := by
  have h := getTransformBetween_self_identity (fun _ => 1) Collimator (by decide)
  exact ⟨by decide, h.2 (fun p _ => by rw [Matrix.det_one]; exact one_ne_zero)⟩

/-- C2 (amended): for tree frames `A`, `B` and every store state whose
elementary matrices are all invertible, with `transformForBeam = false`,
`transformBetween(A, B) * transformBetween(B, A)` is exactly the
identity. -/
theorem transformBetween_inverse_consistency (st : Store)
    (hdet : ∀ p ∈ elementaryTransforms, (st p).det ≠ 0)
    (A B : CoordinateSystemIdentifier)
    (hA : inHierarchyTree A = true) (hB : inHierarchyTree B = true) :
    ∃ M N, getTransformBetween true st A B false = some M ∧
      getTransformBetween true st B A false = some N ∧ M * N = 1 := by
  refine ⟨downProd st B * upProd st A, downProd st A * upProd st B,
    getTransformBetween_tree_formula st A B hA hB,
    getTransformBetween_tree_formula st B A hB hA, ?_⟩
  have hA1 : downProd st A * upProd st A = 1 := downProd_mul_upProd st hdet A hA
  have hB1 : downProd st B * upProd st B = 1 := downProd_mul_upProd st hdet B hB
  have hA2 : upProd st A * downProd st A = 1 := Matrix.mul_eq_one_comm.mp hA1
  have hassoc : (downProd st B * upProd st A) * (downProd st A * upProd st B)
      = downProd st B * ((upProd st A * downProd st A) * upProd st B) := by
    rw [mul_assoc, ← mul_assoc (upProd st A) (downProd st A) (upProd st B)]
  rw [hassoc, hA2, one_mul, hB1]

/-- Witness for C2 (amended) at the frames `Gantry`, `WedgeFilter` and
the all-identity store. -/
theorem transformBetween_inverse_consistency_witness :
    inHierarchyTree Gantry = true ∧ inHierarchyTree WedgeFilter = true ∧
    ∃ M N, getTransformBetween true (fun _ => 1) Gantry WedgeFilter false = some M ∧
      getTransformBetween true (fun _ => 1) WedgeFilter Gantry false = some N ∧
      M * N = 1 :=
  ⟨by decide, by decide,
    transformBetween_inverse_consistency (fun _ => 1)
      (fun p _ => by rw [Matrix.det_one]; exact one_ne_zero) Gantry WedgeFilter
      (by decide) (by decide)⟩

/-!
## A reachable store state with a singular elementary matrix

Calling `UpdatePatientImageRegularGridToDICOMTransform` with all
spacings zero (legal finite numeric input) writes a singular matrix into
the store; `GetTransformBetween` then violates identity-on-self and
inverse consistency.
-/

/-- The matrix written by
`UpdatePatientImageRegularGridToDICOMTransform(0,0,0, 0,0,0)` (default
direction cosines): all zeros except the homogeneous corner. -/
def zeroSpacingMatrix : Mat4 := !![0, 0, 0, 0; 0, 0, 0, 0; 0, 0, 0, 0; 0, 0, 0, 1]

/-- The store state reached from construction by
`UpdatePatientImageRegularGridToDICOMTransform(0, 0, 0, 0, 0, 0)` with
the default direction cosines. -/
def singularStore : Store :=
  updatePatientImageRegularGridToDICOMTransform initialStore 0 0 0 0 0 0 1 0 0 0 1 0

/-- Evaluation of the singular store at every key. -/
theorem singularStore_eval (p : CoordinateSystemIdentifier × CoordinateSystemIdentifier) :
    singularStore p =
      if p = (PatientImageRegularGrid, DICOM) then zeroSpacingMatrix
      else if p = (DICOM, Patient) then dicomToPatientMatrix else 1 := by
  by_cases h1 : p = (PatientImageRegularGrid, DICOM)
  · subst h1
    rw [if_pos rfl]
    ext i j
    fin_cases i <;> fin_cases j <;>
      simp [singularStore, updatePatientImageRegularGridToDICOMTransform, zeroSpacingMatrix,
        Matrix.vecHead, Matrix.vecTail]
  · rw [if_neg h1]
    simp only [singularStore, updatePatientImageRegularGridToDICOMTransform, initialStore]
    rw [if_neg h1]

/-- Inverting the singular zero-spacing matrix yields the zero matrix. -/
theorem invertMatrix_zeroSpacing : invertMatrix zeroSpacingMatrix = 0 := by
  have h : zeroSpacingMatrix.det = 0 :=
    Matrix.det_eq_zero_of_row_eq_zero 0 (by intro j; fin_cases j <;> simp [zeroSpacingMatrix])
  rw [invertMatrix, h]
  norm_num

/-- Explicit inverse of the constant `DICOMToPatientTransform` matrix. -/
def dicomToPatientInverse : Mat4 := !![1, 0, 0, 0; 0, 0, -1, 0; 0, 1, 0, 0; 0, 0, 0, 1]

theorem dicomToPatient_mul_inverse : dicomToPatientMatrix * dicomToPatientInverse = 1 := by
  ext i j
  fin_cases i <;> fin_cases j <;>
    simp [dicomToPatientMatrix, dicomToPatientInverse, Matrix.mul_apply, Fin.sum_univ_four,
      Matrix.one_apply, Matrix.vecHead, Matrix.vecTail]

theorem dicomToPatient_det_ne_zero : dicomToPatientMatrix.det ≠ 0 :=
  Matrix.det_ne_zero_of_right_inverse dicomToPatient_mul_inverse

/-- The tree edges of `PatientImageRegularGrid`, explicitly. -/
theorem edges_PIRG : treeEdges PatientImageRegularGrid =
    [(PatientImageRegularGrid, DICOM), (DICOM, Patient), (Patient, TableTop),
     (TableTop, TableTopEccentricRotation),
     (TableTopEccentricRotation, PatientSupportRotation),
     (PatientSupportRotation, FixedReference)] := by decide

/-- The reversed tree edges of `PatientImageRegularGrid`, explicitly. -/
theorem edges_PIRG_rev : (treeEdges PatientImageRegularGrid).reverse =
    [(PatientSupportRotation, FixedReference),
     (TableTopEccentricRotation, PatientSupportRotation),
     (TableTop, TableTopEccentricRotation), (Patient, TableTop), (DICOM, Patient),
     (PatientImageRegularGrid, DICOM)] := by decide

/-- The tree edges of `DICOM`, explicitly. -/
theorem edges_DICOM : treeEdges DICOM =
    [(DICOM, Patient), (Patient, TableTop), (TableTop, TableTopEccentricRotation),
     (TableTopEccentricRotation, PatientSupportRotation),
     (PatientSupportRotation, FixedReference)] := by decide

/-- The reversed tree edges of `DICOM`, explicitly. -/
theorem edges_DICOM_rev : (treeEdges DICOM).reverse =
    [(PatientSupportRotation, FixedReference),
     (TableTopEccentricRotation, PatientSupportRotation),
     (TableTop, TableTopEccentricRotation), (Patient, TableTop), (DICOM, Patient)] := by
  decide

theorem downProd_singularStore_PIRG : downProd singularStore PatientImageRegularGrid = 0 := by
  rw [downProd, edges_PIRG_rev]
  simp [singularStore_eval, invertMatrix_one, invertMatrix_zeroSpacing]

theorem upProd_singularStore_PIRG :
    upProd singularStore PatientImageRegularGrid =
      dicomToPatientMatrix * zeroSpacingMatrix := by
  rw [upProd, edges_PIRG]
  simp [singularStore_eval]

theorem downProd_singularStore_DICOM :
    downProd singularStore DICOM = invertMatrix dicomToPatientMatrix := by
  rw [downProd, edges_DICOM_rev]
  simp [singularStore_eval, invertMatrix_one]

/-- C3 counterexample: at the reachable singular store state,
`GetTransformBetween(PatientImageRegularGrid, PatientImageRegularGrid,
out, false)` succeeds but returns the zero matrix, not the identity. -/
theorem getTransformBetween_self_identity_counterexample :
    getTransformBetween true singularStore PatientImageRegularGrid PatientImageRegularGrid
        false = some 0 ∧ (0 : Mat4) ≠ 1 := by
  constructor
  · rw [getTransformBetween_tree_formula singularStore _ _ (by decide) (by decide),
      downProd_singularStore_PIRG, zero_mul]
  · intro h
    have h33 := congrFun (congrFun h 3) 3
    simp [Matrix.one_apply] at h33

/-- C2 counterexample: at the reachable singular store state, the
product `transformBetween(PatientImageRegularGrid, DICOM) *
transformBetween(DICOM, PatientImageRegularGrid)` is the zero matrix,
not the identity. -/
theorem transformBetween_inverse_consistency_counterexample :
    getTransformBetween true singularStore PatientImageRegularGrid DICOM false =
      some zeroSpacingMatrix ∧
    getTransformBetween true singularStore DICOM PatientImageRegularGrid false = some 0 ∧
    zeroSpacingMatrix * (0 : Mat4) ≠ 1 := by
  refine ⟨?_, ?_, ?_⟩
  · rw [getTransformBetween_tree_formula singularStore _ _ (by decide) (by decide),
      downProd_singularStore_DICOM, upProd_singularStore_PIRG,
      invertMatrix_mul_cancel_left _ _ dicomToPatient_det_ne_zero]
  · rw [getTransformBetween_tree_formula singularStore _ _ (by decide) (by decide),
      downProd_singularStore_PIRG, zero_mul]
  · rw [mul_zero]
    intro h
    have h33 := congrFun (congrFun h 3) 3
    simp [Matrix.one_apply] at h33

/-!
## C4: update locality
-/

/-- The eight parametrized update operations of the public interface,
one constructor per member function, carrying the call's parameters
(rotation angles represented by their cosine and sine). -/
inductive UpdateOperation where
  | updateGantryToFixedReference
      (cosGantryRotationAngle sinGantryRotationAngle
       cosGantryPitchAngle sinGantryPitchAngle : ℚ)
  | updateCollimatorToGantry
      (cosCollimatorRotationAngle sinCollimatorRotationAngle bz : ℚ)
  | updateWedgeFilterToCollimator
      (cosWedgeFilterRotationAngle sinWedgeFilterRotationAngle wz : ℚ)
  | updatePatientSupportRotationToFixedReference
      (cosPatientSupportRotationAngle sinPatientSupportRotationAngle : ℚ)
  | updateTableTopEccentricRotationToPatientSupportRotation
      (cosTableTopEccentricRotationAngle sinTableTopEccentricRotationAngle ey : ℚ)
  | updateTableTopToTableTopEccentricRotation
      (tx ty tz cosTableTopPitchAngle sinTableTopPitchAngle
       cosTableTopRollAngle sinTableTopRollAngle : ℚ)
  | updatePatientToTableTop
      (px py pz cosPatientPsiAngle sinPatientPsiAngle
       cosPatientPhiAngle sinPatientPhiAngle
       cosPatientThetaAngle sinPatientThetaAngle : ℚ)
  | updatePatientImageRegularGridToDICOM
      (columnPixelSpacing rowPixelSpacing sliceDistance sx sy sz
       directionCosineXx directionCosineXy directionCosineXz
       directionCosineYx directionCosineYy directionCosineYz : ℚ)

/-- The edge (transform object) each update operation writes. -/
def UpdateOperation.edge :
    UpdateOperation → CoordinateSystemIdentifier × CoordinateSystemIdentifier
  | .updateGantryToFixedReference _ _ _ _ => (Gantry, FixedReference)
  | .updateCollimatorToGantry _ _ _ => (Collimator, Gantry)
  | .updateWedgeFilterToCollimator _ _ _ => (WedgeFilter, Collimator)
  | .updatePatientSupportRotationToFixedReference _ _ =>
      (PatientSupportRotation, FixedReference)
  | .updateTableTopEccentricRotationToPatientSupportRotation _ _ _ =>
      (TableTopEccentricRotation, PatientSupportRotation)
  | .updateTableTopToTableTopEccentricRotation _ _ _ _ _ _ _ =>
      (TableTop, TableTopEccentricRotation)
  | .updatePatientToTableTop _ _ _ _ _ _ _ _ _ => (Patient, TableTop)
  | .updatePatientImageRegularGridToDICOM _ _ _ _ _ _ _ _ _ _ _ _ =>
      (PatientImageRegularGrid, DICOM)

/-- Running an update operation on a store state: dispatch to the
corresponding embedded member function. -/
def UpdateOperation.apply : UpdateOperation → Store → Store
  | .updateGantryToFixedReference a b c d, st =>
      updateGantryToFixedReferenceTransform st a b c d
  | .updateCollimatorToGantry a b c, st => updateCollimatorToGantryTransform st a b c
  | .updateWedgeFilterToCollimator a b c, st =>
      updateWedgeFilterToCollimatorTransform st a b c
  | .updatePatientSupportRotationToFixedReference a b, st =>
      updatePatientSupportRotationToFixedReferenceTransform st a b
  | .updateTableTopEccentricRotationToPatientSupportRotation a b c, st =>
      updateTableTopEccentricRotationToPatientSupportRotationTransform st a b c
  | .updateTableTopToTableTopEccentricRotation a b c d e f g, st =>
      updateTableTopToTableTopEccentricRotationTransform st a b c d e f g
  | .updatePatientToTableTop a b c d e f g h i, st =>
      updatePatientToTableTopTransform st a b c d e f g h i
  | .updatePatientImageRegularGridToDICOM a b c d e f g h i j k l, st =>
      updatePatientImageRegularGridToDICOMTransform st a b c d e f g h i j k l

/-- The name scan is unambiguous: whenever it finds a transform object
for a query, the found object is the queried pair itself (so reading any
transform other than a query's own never happens). -/
theorem findElementaryTransform_self :
    ∀ q : CoordinateSystemIdentifier × CoordinateSystemIdentifier,
      (findElementaryTransform q.1 q.2).getD q = q := by
  decide

/-- Pointwise form of `findElementaryTransform_self`. -/
theorem findElementaryTransform_eq_some
    {q r : CoordinateSystemIdentifier × CoordinateSystemIdentifier}
    (h : findElementaryTransform q.1 q.2 = some r) : q = r := by
  have hq := findElementaryTransform_self q
  rw [h, Option.getD_some] at hq
  exact hq.symm

/-- The from-leg walk reads the store only at the transforms its lookups
resolve to: two stores that differ only at `e` agree on it when no
walked pair is `e`. -/
theorem fromLegLoop_congr (st st' : Store)
    (e : CoordinateSystemIdentifier × CoordinateSystemIdentifier)
    (hagree : ∀ p, p ≠ e → st' p = st p)
    (hunique : ∀ q : CoordinateSystemIdentifier × CoordinateSystemIdentifier,
      findElementaryTransform q.1 q.2 = some e → q = e) :
    ∀ (pairs : List (CoordinateSystemIdentifier × CoordinateSystemIdentifier)) (acc : Mat4),
      (∀ q ∈ pairs, q ≠ e) →
      fromLegLoop st' pairs acc = fromLegLoop st pairs acc := by
  intro pairs
  induction pairs with
  | nil => intro acc _; rfl
  | cons q rest ih =>
    intro acc hq
    rcases q with ⟨child, parent⟩
    by_cases hcp : child = parent
    · rw [fromLegLoop, fromLegLoop, if_pos hcp, if_pos hcp]
      exact ih acc (fun r hr => hq r (List.mem_cons_of_mem _ hr))
    · rw [fromLegLoop, fromLegLoop, if_neg hcp, if_neg hcp]
      rcases hfind : findElementaryTransform child parent with _ | r
      · rw [getElementaryTransformBetween, getElementaryTransformBetween, hfind]
        rfl
      · have hre : r ≠ e := by
          intro hcontra
          subst hcontra
          exact hq (child, parent) (List.mem_cons_self _ _) (hunique (child, parent) hfind)
        rw [getElementaryTransformBetween, getElementaryTransformBetween, hfind,
          Option.map_some', Option.map_some', hagree r hre]
        exact ih _ (fun x hx => hq x (List.mem_cons_of_mem _ hx))

/-- Same congruence for the to-leg walk (which looks each pair up in the
child-to-parent direction). -/
theorem toLegLoop_congr (st st' : Store) (transformForBeam : Bool)
    (e : CoordinateSystemIdentifier × CoordinateSystemIdentifier)
    (hagree : ∀ p, p ≠ e → st' p = st p)
    (hunique : ∀ q : CoordinateSystemIdentifier × CoordinateSystemIdentifier,
      findElementaryTransform q.1 q.2 = some e → q = e) :
    ∀ (pairs : List (CoordinateSystemIdentifier × CoordinateSystemIdentifier)) (acc : Mat4),
      (∀ q ∈ pairs, (q.2, q.1) ≠ e) →
      toLegLoop st' transformForBeam pairs acc = toLegLoop st transformForBeam pairs acc := by
  intro pairs
  induction pairs with
  | nil => intro acc _; rfl
  | cons q rest ih =>
    intro acc hq
    rcases q with ⟨parent, child⟩
    by_cases hcp : child = parent
    · rw [toLegLoop, toLegLoop, if_pos hcp, if_pos hcp]
      exact ih acc (fun r hr => hq r (List.mem_cons_of_mem _ hr))
    · rw [toLegLoop, toLegLoop, if_neg hcp, if_neg hcp]
      rcases hfind : findElementaryTransform child parent with _ | r
      · rw [getElementaryTransformBetween, getElementaryTransformBetween, hfind]
        rfl
      · have hre : r ≠ e := by
          intro hcontra
          subst hcontra
          exact hq (parent, child) (List.mem_cons_self _ _) (hunique (child, parent) hfind)
        rw [getElementaryTransformBetween, getElementaryTransformBetween, hfind,
          Option.map_some', Option.map_some', hagree r hre]
        exact ih _ (fun x hx => hq x (List.mem_cons_of_mem _ hx))

/-- Composition fails when the source frame is outside the tree. -/
theorem getTransformBetween_fail_from (st : Store) (A B : CoordinateSystemIdentifier)
    (beam : Bool) (h : inHierarchyTree A = false) :
    getTransformBetween true st A B beam = none := by
  unfold getTransformBetween
  rw [getPathToRoot_eval, h]
  rfl

/-- Composition fails when the target frame is outside the tree. -/
theorem getTransformBetween_fail_to (st : Store) (A B : CoordinateSystemIdentifier)
    (beam : Bool) (h : inHierarchyTree B = false) :
    getTransformBetween true st A B beam = none := by
  have hB' : getPathFromRoot B = (false, chainToRoot B) := by
    unfold getPathFromRoot
    rw [getPathToRoot_eval, h]
  unfold getTransformBetween
  rw [getPathToRoot_eval]
  cases hTA : inHierarchyTree A
  · rfl
  · show (match getPathFromRoot B with
      | (false, _) => none
      | (true, toFramePath) =>
        match fromLegLoop st (adjacentPairs (chainToRoot A)) 1 with
        | none => none
        | some acc => toLegLoop st beam (adjacentPairs toFramePath) acc) = none
    rw [hB']

/-- Two stores that agree except at one edge give the same
`GetTransformBetween` result for every frame pair whose resolved root
paths avoid that edge (name-scan unambiguity guarantees no other query
reads the differing entry). -/
theorem setEdge_getTransformBetween_congr (st st' : Store)
    (e : CoordinateSystemIdentifier × CoordinateSystemIdentifier)
    (hagree : ∀ p, p ≠ e → st' p = st p)
    (A B : CoordinateSystemIdentifier) (beam : Bool)
    (hA : e ∉ adjacentPairs (getPathToRoot A).2)
    (hB : e ∉ adjacentPairs (getPathToRoot B).2) :
    getTransformBetween true st' A B beam = getTransformBetween true st A B beam := by
  cases hTA : inHierarchyTree A with
  | false =>
    rw [getTransformBetween_fail_from st' A B beam hTA,
      getTransformBetween_fail_from st A B beam hTA]
  | true =>
    cases hTB : inHierarchyTree B with
    | false =>
      rw [getTransformBetween_fail_to st' A B beam hTB,
        getTransformBetween_fail_to st A B beam hTB]
    | true =>
      have hpA : getPathToRoot A = (true, chainToRoot A) := by rw [getPathToRoot_eval, hTA]
      have hpB : getPathFromRoot B = (true, (chainToRoot B).reverse) := by
        unfold getPathFromRoot
        rw [getPathToRoot_eval, hTB]
      have hA' : ∀ q ∈ adjacentPairs (chainToRoot A), q ≠ e := by
        intro q hq hcontra
        subst hcontra
        rw [getPathToRoot_eval] at hA
        exact hA hq
      have hB' : ∀ q ∈ adjacentPairs ((chainToRoot B).reverse), (q.2, q.1) ≠ e := by
        intro q hq hcontra
        rw [toLeg_pairs_eq B hTB] at hq
        rcases List.mem_map.mp hq with ⟨r, hr, rfl⟩
        rw [Prod.snd_swap, Prod.fst_swap, Prod.mk.eta] at hcontra
        subst hcontra
        rw [getPathToRoot_eval] at hB
        exact hB (List.mem_reverse.mp hr)
      unfold getTransformBetween
      rw [hpA, hpB]
      show (match fromLegLoop st' (adjacentPairs (chainToRoot A)) 1 with
        | none => none
        | some acc => toLegLoop st' beam (adjacentPairs ((chainToRoot B).reverse)) acc) =
        (match fromLegLoop st (adjacentPairs (chainToRoot A)) 1 with
        | none => none
        | some acc => toLegLoop st beam (adjacentPairs ((chainToRoot B).reverse)) acc)
      rw [fromLegLoop_congr st st' e hagree
        (fun _ h => findElementaryTransform_eq_some h) _ 1 hA']
      rcases fromLegLoop st (adjacentPairs (chainToRoot A)) 1 with _ | acc
      · rfl
      · exact toLegLoop_congr st st' beam e hagree
          (fun _ h => findElementaryTransform_eq_some h) _ acc hB'

/-- C4: each of the eight update operations mutates only its own edge's
elementary matrix and no other state; consequently, for every
`transformForBeam` flag and every frame pair whose resolved root paths
do not traverse the updated edge, the result of `GetTransformBetween`
is unchanged by the update. -/
theorem updateOperation_locality (op : UpdateOperation) (st : Store)
    (A B : CoordinateSystemIdentifier) (beam : Bool)
    (hA : op.edge ∉ adjacentPairs (getPathToRoot A).2)
    (hB : op.edge ∉ adjacentPairs (getPathToRoot B).2) :
    (∀ p, p ≠ op.edge → op.apply st p = st p) ∧
    getTransformBetween true (op.apply st) A B beam =
      getTransformBetween true st A B beam := by
  have hagree : ∀ p, p ≠ op.edge → op.apply st p = st p := by
    intro p hp
    cases op <;> exact if_neg hp
  exact ⟨hagree,
    setEdge_getTransformBetween_congr st (op.apply st) op.edge hagree A B beam hA hB⟩

/-- Witness for C4: the collimator update (the claim's example) at
concrete parameters does not change the `PatientSupport`-to-`TableTop`
transform. -/
theorem updateOperation_locality_witness :
    ((UpdateOperation.updateCollimatorToGantry 0 1 5).edge ∉
      adjacentPairs (getPathToRoot PatientSupport).2) ∧
    ((UpdateOperation.updateCollimatorToGantry 0 1 5).edge ∉
      adjacentPairs (getPathToRoot TableTop).2) ∧
    getTransformBetween true
        ((UpdateOperation.updateCollimatorToGantry 0 1 5).apply (fun _ => 1))
        PatientSupport TableTop false =
      getTransformBetween true (fun _ => 1) PatientSupport TableTop false := by
  have h := updateOperation_locality (UpdateOperation.updateCollimatorToGantry 0 1 5)
    (fun _ => 1) PatientSupport TableTop false (by decide) (by decide)
  exact ⟨by decide, by decide, h.2⟩

/-!
## C6: transform names
-/

/-- C6 counterexample: `GetTransformNameBetween(Gantry, FixedReference)`
is `"GantryToFixedReferenceTransform"`, which is not the bare
`"<FromName>To<ToName>"` concatenation the claim states (the code
appends a `"Transform"` suffix). -/
theorem getTransformNameBetween_counterexample :
    getTransformNameBetween Gantry FixedReference = "GantryToFixedReferenceTransform" ∧
    getTransformNameBetween Gantry FixedReference ≠
      coordinateSystemsMap Gantry ++ "To" ++ coordinateSystemsMap FixedReference := by
  constructor
  · rfl
  · decide

/-- C6 (amended): for every ordered pair of frames,
`GetTransformNameBetween` returns exactly the concatenation of the
source frame's display name, `"To"`, the target frame's display name,
and the fixed suffix `"Transform"`. -/
theorem getTransformNameBetween_eq
    (fromFrame toFrame : CoordinateSystemIdentifier) :
    getTransformNameBetween fromFrame toFrame =
      coordinateSystemsMap fromFrame ++ "To" ++ coordinateSystemsMap toFrame ++
        "Transform" := rfl

/-!
## Index linearization (`VectorizedToLinearizedIndex` /
`LinearizedToVectorizedIndex`)

`uint16_t` values are embedded as naturals below `2^16`, the `uint64_t`
arithmetic as arithmetic modulo `2^64`, and `throw std::runtime_error`
as `none`.
-/

/-- `vtkIECTransformLogic::VectorizedToLinearizedIndex`: bounds-check
the three indices `(e0, e1, e2)` against the extents `(n0, n1, n2)`
(throwing on any out-of-range coordinate), then return
`e0*n1*n2 + e1*n2 + e2` computed in `uint64_t`. -/
def vectorizedToLinearizedIndex : Nat × Nat × Nat → Nat × Nat × Nat → Option Nat
  | (e0, e1, e2), (n0, n1, n2) =>
    if e0 ≥ n0 ∨ e1 ≥ n1 ∨ e2 ≥ n2 then none
    else some ((e0 * n1 * n2 + e1 * n2 + e2) % 2 ^ 64)

/-- `vtkIECTransformLogic::LinearizedToVectorizedIndex`: bounds-check
the linear index against `totalElems = n0*n1*n2` (throwing when out of
range), then recover the three indices by division/modulo by `n2` and
`n1`; the final casts to `uint16_t` truncate modulo `2^16`. -/
def linearizedToVectorizedIndex (linearizedIndex : Nat) :
    Nat × Nat × Nat → Option (Nat × Nat × Nat)
  | (n0, n1, n2) =>
    if linearizedIndex ≥ n0 * n1 * n2 % 2 ^ 64 then none
    else
      some (linearizedIndex / n2 / n1 % 2 ^ 16, linearizedIndex / n2 % n1 % 2 ^ 16,
        linearizedIndex % n2 % 2 ^ 16)

/-- A strictly in-range 3D index linearizes strictly below the total
element count. -/
theorem linearized_lt_total {n0 n1 n2 e0 e1 e2 : Nat}
    (h0 : e0 < n0) (h1 : e1 < n1) (h2 : e2 < n2) :
    e0 * n1 * n2 + e1 * n2 + e2 < n0 * n1 * n2 := by
  have step2 : e0 * (n1 * n2) + (e1 * n2 + e2) < (e0 + 1) * (n1 * n2) := by
    have hlt : e1 * n2 + e2 < n1 * n2 := by
      have h2' : e1 * n2 + e2 < (e1 + 1) * n2 := by
        rw [Nat.succ_mul]
        omega
      exact lt_of_lt_of_le h2' (Nat.mul_le_mul_right n2 h1)
    rw [Nat.succ_mul]
    omega
  have step3 : (e0 + 1) * (n1 * n2) ≤ n0 * (n1 * n2) := Nat.mul_le_mul_right _ h0
  calc e0 * n1 * n2 + e1 * n2 + e2 = e0 * (n1 * n2) + (e1 * n2 + e2) := by ring
    _ < (e0 + 1) * (n1 * n2) := step2
    _ ≤ n0 * (n1 * n2) := step3
    _ = n0 * n1 * n2 := by ring

/-- With `uint16_t` extents the total element count fits in `uint64_t`. -/
theorem total_lt_word {n0 n1 n2 : Nat}
    (hn0 : n0 < 2 ^ 16) (hn1 : n1 < 2 ^ 16) (hn2 : n2 < 2 ^ 16) :
    n0 * n1 * n2 < 2 ^ 64 := by
  have hle : n0 * n1 * n2 ≤ 65535 * 65535 * 65535 :=
    Nat.mul_le_mul (Nat.mul_le_mul (by omega) (by omega)) (by omega)
  omega

/-- C7: for every extents triple of `uint16_t` values and every 3D index
with each component strictly below its extent, linearization succeeds
with `e0*n1*n2 + e1*n2 + e2` and de-linearization recovers the original
index. -/
theorem linearized_roundtrip (n0 n1 n2 e0 e1 e2 : Nat)
    (hn0 : n0 < 2 ^ 16) (hn1 : n1 < 2 ^ 16) (hn2 : n2 < 2 ^ 16)
    (h0 : e0 < n0) (h1 : e1 < n1) (h2 : e2 < n2) :
    vectorizedToLinearizedIndex (e0, e1, e2) (n0, n1, n2) =
      some (e0 * n1 * n2 + e1 * n2 + e2) ∧
    linearizedToVectorizedIndex (e0 * n1 * n2 + e1 * n2 + e2) (n0, n1, n2) =
      some (e0, e1, e2) := by
  have hn2pos : 0 < n2 := lt_of_le_of_lt (Nat.zero_le e2) h2
  have hn1pos : 0 < n1 := lt_of_le_of_lt (Nat.zero_le e1) h1
  have key := linearized_lt_total h0 h1 h2
  have htot := total_lt_word hn0 hn1 hn2
  have h64 : e0 * n1 * n2 + e1 * n2 + e2 < 2 ^ 64 := lt_trans key htot
  constructor
  · simp only [vectorizedToLinearizedIndex]
    rw [if_neg (by push_neg; exact ⟨h0, h1, h2⟩), Nat.mod_eq_of_lt h64]
  · simp only [linearizedToVectorizedIndex]
    rw [Nat.mod_eq_of_lt htot, if_neg (not_le.mpr key)]
    have hdiv : (e0 * n1 * n2 + e1 * n2 + e2) / n2 = e0 * n1 + e1 := by
      have hsplit : e0 * n1 * n2 + e1 * n2 + e2 = e2 + (e0 * n1 + e1) * n2 := by ring
      rw [hsplit, Nat.add_mul_div_right _ _ hn2pos, Nat.div_eq_of_lt h2, Nat.zero_add]
    have hdiv2 : (e0 * n1 + e1) / n1 = e0 := by
      have hsplit : e0 * n1 + e1 = e1 + e0 * n1 := by ring
      rw [hsplit, Nat.add_mul_div_right _ _ hn1pos, Nat.div_eq_of_lt h1, Nat.zero_add]
    have hmod1 : (e0 * n1 + e1) % n1 = e1 := by
      have hsplit : e0 * n1 + e1 = e1 + e0 * n1 := by ring
      rw [hsplit, Nat.add_mul_mod_self_right, Nat.mod_eq_of_lt h1]
    have hmod2 : (e0 * n1 * n2 + e1 * n2 + e2) % n2 = e2 := by
      have hsplit : e0 * n1 * n2 + e1 * n2 + e2 = e2 + (e0 * n1 + e1) * n2 := by ring
      rw [hsplit, Nat.add_mul_mod_self_right, Nat.mod_eq_of_lt h2]
    rw [hdiv, hdiv2, hmod1, hmod2, Nat.mod_eq_of_lt (lt_trans h0 hn0),
      Nat.mod_eq_of_lt (lt_trans h1 hn1), Nat.mod_eq_of_lt (lt_trans h2 hn2)]

/-- Witness for C7 at the specified scenario:
`toLinearIndex((1,2,3), (4,5,6)) = 45` and back. -/
theorem linearized_roundtrip_witness :
    vectorizedToLinearizedIndex (1, 2, 3) (4, 5, 6) = some 45 ∧
    linearizedToVectorizedIndex 45 (4, 5, 6) = some (1, 2, 3) := by
  have h := linearized_roundtrip 4 5 6 1 2 3 (by decide) (by decide) (by decide)
    (by decide) (by decide) (by decide)
  exact ⟨h.1, h.2⟩

/-- C8: with `uint16_t` extents, `VectorizedToLinearizedIndex` throws
exactly when some coordinate reaches its extent, and
`LinearizedToVectorizedIndex` throws exactly when the linear index
reaches `n0*n1*n2`; on in-range input each returns normally — no
clamping or wrapping. -/
theorem linearized_bounds_check (n0 n1 n2 e0 e1 e2 lin : Nat)
    (hn0 : n0 < 2 ^ 16) (hn1 : n1 < 2 ^ 16) (hn2 : n2 < 2 ^ 16) :
    (vectorizedToLinearizedIndex (e0, e1, e2) (n0, n1, n2) = none ↔
      e0 ≥ n0 ∨ e1 ≥ n1 ∨ e2 ≥ n2) ∧
    (linearizedToVectorizedIndex lin (n0, n1, n2) = none ↔ lin ≥ n0 * n1 * n2) := by
  have htot := total_lt_word hn0 hn1 hn2
  constructor
  · simp only [vectorizedToLinearizedIndex]
    by_cases h : e0 ≥ n0 ∨ e1 ≥ n1 ∨ e2 ≥ n2
    · simp [h]
    · simp [h]
  · simp only [linearizedToVectorizedIndex]
    rw [Nat.mod_eq_of_lt htot]
    by_cases h : lin ≥ n0 * n1 * n2
    · simp [h]
    · simp [h]

/-- Witness for C8 at out-of-range inputs `(1,7,3)` against `(4,5,6)`
and linear index `120` against `4*5*6 = 120`. -/
theorem linearized_bounds_check_witness :
    vectorizedToLinearizedIndex (1, 7, 3) (4, 5, 6) = none ∧
    linearizedToVectorizedIndex 120 (4, 5, 6) = none := by
  have h := linearized_bounds_check 4 5 6 1 7 3 120 (by decide) (by decide) (by decide)
  exact ⟨h.1.mpr (by omega), h.2.mpr (by omega)⟩

/-- C10: when any extent is zero the total element count is zero, so
`LinearizedToVectorizedIndex` reports the range error for every linear
index — its divisions and modulos by `n2` and `n1` are never reached
with a zero divisor — and `VectorizedToLinearizedIndex` reports the
range error for every index triple; both functions are total, returning
the error instead of dividing by zero. -/
theorem linearized_zero_extent (n0 n1 n2 e0 e1 e2 lin : Nat)
    (h : n0 = 0 ∨ n1 = 0 ∨ n2 = 0) :
    linearizedToVectorizedIndex lin (n0, n1, n2) = none ∧
    vectorizedToLinearizedIndex (e0, e1, e2) (n0, n1, n2) = none := by
  have htot : n0 * n1 * n2 = 0 := by rcases h with h | h | h <;> simp [h]
  constructor
  · simp only [linearizedToVectorizedIndex]
    rw [htot]
    simp
  · simp only [vectorizedToLinearizedIndex]
    rw [if_pos (by omega)]

/-- Witness for C10 at extents `(4, 0, 6)`. -/
theorem linearized_zero_extent_witness :
    linearizedToVectorizedIndex 7 (4, 0, 6) = none ∧
    vectorizedToLinearizedIndex (1, 2, 3) (4, 0, 6) = none :=
  linearized_zero_extent 4 0 6 1 2 3 7 (Or.inr (Or.inl rfl))

/-!
## C9: null output transform

To make the "returns false immediately, performing no path resolution
and no elementary lookup" part of the claim observable in a pure
embedding, the function is re-embedded with a trace of the actions it
performs.  The store is never written by `GetTransformBetween` (the
embedding returns no store), so no stored state can be mutated.
-/

/-- The observable actions of `GetTransformBetween`: resolving a root
path and looking up an elementary transform. -/
inductive TraceEvent where
  | pathResolution (frame : CoordinateSystemIdentifier)
  | elementaryLookup (fromFrame toFrame : CoordinateSystemIdentifier)
  deriving DecidableEq, Repr

/-- The from-leg loop, also recording each elementary lookup it
performs. -/
def fromLegLoopTraced (st : Store) :
    List (CoordinateSystemIdentifier × CoordinateSystemIdentifier) → Mat4 →
    List TraceEvent → Option Mat4 × List TraceEvent
  | [], acc, tr => (some acc, tr)
  | (child, parent) :: rest, acc, tr =>
    if child = parent then fromLegLoopTraced st rest acc tr
    else
      match getElementaryTransformBetween st child parent with
      | some fromTransform =>
        fromLegLoopTraced st rest (fromTransform * acc)
          (tr ++ [TraceEvent.elementaryLookup child parent])
      | none => (none, tr ++ [TraceEvent.elementaryLookup child parent])

/-- The to-leg loop, also recording each elementary lookup it
performs. -/
def toLegLoopTraced (st : Store) (transformForBeam : Bool) :
    List (CoordinateSystemIdentifier × CoordinateSystemIdentifier) → Mat4 →
    List TraceEvent → Option Mat4 × List TraceEvent
  | [], acc, tr => (some acc, tr)
  | (parent, child) :: rest, acc, tr =>
    if child = parent then toLegLoopTraced st transformForBeam rest acc tr
    else
      match getElementaryTransformBetween st child parent with
      | some toTransform =>
        toLegLoopTraced st transformForBeam rest
          ((if transformForBeam then toTransform else invertMatrix toTransform) * acc)
          (tr ++ [TraceEvent.elementaryLookup child parent])
      | none => (none, tr ++ [TraceEvent.elementaryLookup child parent])

/-- `vtkIECTransformLogic::GetTransformBetween` with its action trace.
The null-output check precedes everything else; `GetPathFromRoot` is
reached only if `GetPathToRoot` succeeded (short-circuit `&&`). -/
def getTransformBetweenTraced (outputPresent : Bool) (st : Store)
    (fromFrame toFrame : CoordinateSystemIdentifier) (transformForBeam : Bool) :
    Option Mat4 × List TraceEvent :=
  if outputPresent = false then
    (none, [])
  else
    match getPathToRoot fromFrame with
    | (false, _) => (none, [TraceEvent.pathResolution fromFrame])
    | (true, fromFramePath) =>
      match getPathFromRoot toFrame with
      | (false, _) =>
        (none, [TraceEvent.pathResolution fromFrame, TraceEvent.pathResolution toFrame])
      | (true, toFramePath) =>
        match fromLegLoopTraced st (adjacentPairs fromFramePath) 1
            [TraceEvent.pathResolution fromFrame, TraceEvent.pathResolution toFrame] with
        | (none, tr) => (none, tr)
        | (some acc, tr) =>
          toLegLoopTraced st transformForBeam (adjacentPairs toFramePath) acc tr

/-- C9: for every frame pair, store state and `transformForBeam` flag,
a call with a null output transform returns failure immediately: the
trace is empty (no path resolved, no elementary lookup performed), and
the pure embedding leaves the store untouched by construction. -/
theorem getTransformBetween_nullOutput (st : Store)
    (fromFrame toFrame : CoordinateSystemIdentifier) (transformForBeam : Bool) :
    getTransformBetweenTraced false st fromFrame toFrame transformForBeam = (none, []) ∧
    getTransformBetween false st fromFrame toFrame transformForBeam = none :=
  ⟨rfl, rfl⟩
